import Mathlib

/-!
Verification of the Cycling Quality Index (CQI) pipeline
(`scr/py/recyclingbin/index.py` and `scr/py/recyclingbin/index2.py`).

Shallow embedding conventions:
* A segment geometry is either a `LineString` — an ordered vertex list with a
  first vertex, possibly-empty interior vertices and a last vertex (shapely
  LineStrings always have at least two vertices) — or some other geometry kind
  (`nonline`), which the pipeline functions skip or keep unchanged exactly as
  `isinstance(geom, LineString)` checks do in the source.
* Vertex coordinates are rationals (Python floats are rationals; endpoint
  comparison in `remove_deadends` is the exact tuple equality of the source).
* Metric quantities (lengths, interpolation, buffering) are ideal reals; the
  buffered-disk intersection test of `compute_sidepath_presence` is modelled
  as the exact disk: the disk of radius `r` around `c` meets a polyline iff
  some point of the polyline has squared distance at most `r ^ 2` from `c`.
* A pandas missing value (`None` / `NaN`) is `Option.none`; arithmetic on a
  missing value yields a missing value, which is exactly what `Series.clip`
  and float arithmetic do with `NaN`.
* A raised Python exception is an `Except.error` / `Option.none` result.
-/

namespace CECI

/-- An exact 2-D coordinate as stored on a geometry (`(x, y)` float tuple). -/
abbrev Coord : Type := ℚ × ℚ

/-- A derived 2-D point in the metric plane. -/
abbrev Point : Type := ℝ × ℝ

/-- The pandas row index of a segment (`idx` in `gdf.iterrows()`). -/
abbrev Key : Type := ℕ

/-- A geometry value of a GeoDataFrame row: a LineString with first vertex,
interior vertices and last vertex, or any non-LineString geometry. -/
inductive Geom : Type where
  | line (first : Coord) (mid : List Coord) (last : Coord)
  | nonline
deriving DecidableEq

/-- A row of the segment table: pandas index paired with its geometry. -/
abbrev Row : Type := Key × Geom

/-- The full vertex list of a LineString (`list(geom.coords)`). -/
def coordsOf (a : Coord) (m : List Coord) (b : Coord) : List Coord :=
  a :: m ++ [b]

/-! ### Topology cleaner (`remove_deadends`, index.py lines 64-79) -/

/-- The flat list of endpoint occurrences built by the loop
`for geom in gdf.geometry: ... endpoints.append(coords[0]); endpoints.append(coords[-1])`.
Each LineString contributes its first and last coordinate, with multiplicity. -/
def endpointOccurrences (gdf : List Row) : List Coord :=
  match gdf with
  | [] => []
  | (_, Geom.line a _ b) :: rest => a :: b :: endpointOccurrences rest
  | (_, Geom.nonline) :: rest => endpointOccurrences rest

/-- `dead_coords` membership: `counts[counts == 1]` of `pd.Series(endpoints).value_counts()` —
the coordinate occurs exactly once in the endpoint-occurrence list. -/
def deadCoord (gdf : List Row) (c : Coord) : Bool :=
  (endpointOccurrences gdf).count c == 1

/-- `is_dead`: a LineString is dead iff its start or its end lies in `dead_coords`;
non-LineStrings are never dead. -/
def is_dead (gdf : List Row) : Geom → Bool
  | Geom.line a _ b => deadCoord gdf a || deadCoord gdf b
  | Geom.nonline => false

/-- `remove_deadends`: keep the rows whose geometry is not dead, judging
deadness against the endpoint counts of the whole original input. -/
def remove_deadends (gdf : List Row) : List Row :=
  gdf.filter (fun r => ! is_dead gdf r.2)

/-- Number of segments of the collection having `c` as an endpoint
(each segment counted once, even a closed one). Used to state the
per-segment reading of "occurs as an endpoint of exactly one segment". -/
def segTouchCount (gdf : List Row) (c : Coord) : ℕ :=
  (gdf.filter (fun r =>
    match r.2 with
    | Geom.line a _ b => a == c || b == c
    | Geom.nonline => false)).length

/-- A LineString has a dead endpoint in the sense actually implemented: one of
its two end coordinates occurs exactly once in the endpoint-occurrence list of
the original collection. Non-LineStrings never do. -/
def hasDeadEndpointOcc (gdf : List Row) : Geom → Prop
  | Geom.line a _ b =>
      (endpointOccurrences gdf).count a = 1 ∨ (endpointOccurrences gdf).count b = 1
  | Geom.nonline => False

/-! ### Scorer (`compute_quality_index`, index.py lines 111-119)

The source is vectorized over a DataFrame; per row it computes
`speed_norm = proc_maxspeed.clip(0, 60) / 60`,
`cqi = 0.3 * barrier + 0.3 * side + 0.4 * (1 - speed_norm)`.
`Series.clip` leaves `NaN` in place and every float operation propagates it,
so a missing `proc_maxspeed` yields a missing `cqi`; `Option ℚ` models this. -/

/-- `Series.clip(0, 60)` on a present value. -/
def clip0_60 (x : ℚ) : ℚ := min (max x 0) 60

/-- `speed_norm`: clip then divide by 60; `NaN` propagates. -/
def speed_norm (proc : Option ℚ) : Option ℚ :=
  proc.map (fun s => clip0_60 s / 60)

/-- `.astype(int)` of a boolean column entry. -/
def boolScore (b : Bool) : ℚ := if b then 1 else 0

/-- Per-row semantics of `compute_quality_index`: the weighted sum
`0.3 * barrier_score + 0.3 * side_score + 0.4 * (1 - speed_norm)`;
missing speed makes the whole score missing (`NaN`). -/
def compute_quality_index (barrier side : Bool) (proc : Option ℚ) : Option ℚ :=
  (speed_norm proc).map
    (fun v => 3/10 * boolScore barrier + 3/10 * boolScore side + 4/10 * (1 - v))

/-! ### `extract_numeric` (index.py lines 57-61)

`re.search(r"\d+", str(val))` finds the leftmost maximal run of decimal
digits; `float(m.group())` converts it. `None` input or no digit gives `None`.
The model takes the string form of the value directly. -/

/-- The integer value of a digit run (`float("0030") = 30.0`). -/
def digitsVal (l : List Char) : ℕ :=
  l.foldl (fun acc c => 10 * acc + (c.toNat - 48)) 0

/-- Leftmost-match scanner for the pattern of one-or-more digits: skip
characters until the first digit, then take the maximal run from there. -/
def findRun : List Char → Option (List Char)
  | [] => none
  | c :: rest =>
      if c.isDigit then some (c :: rest.takeWhile (fun x => x.isDigit))
      else findRun rest

/-- `extract_numeric`: `None ↦ None`; otherwise the first maximal digit run of
the string form, as a number, or `None` when the string has no digit. -/
def extract_numeric (val : Option String) : Option ℚ :=
  val.bind (fun s => (findRun s.data).map (fun run => (digitsVal run : ℚ)))

/-- Spec-side restatement of the claim about `extract_numeric`: skip the
leading non-digit characters, take the maximal digit run, fail when empty. -/
def firstDigitRunSpec (s : String) : Option ℚ :=
  let run := (s.data.dropWhile (fun c => ! c.isDigit)).takeWhile (fun c => c.isDigit)
  if run.isEmpty then none else some (digitsVal run)

/-! ### Offset generator (`generate_offset_lines`, index2.py lines 103-124)

`line.parallel_offset(offset_dist, side, join_style=2)` is an external GEOS
operation; it is a parameter of the model (an oracle). A raised exception is
`Except.error ()`; the `try` block wraps both the left and the right call, so
either failure skips the whole segment. A successful result is appended only
when it is a `LineString` or a `MultiLineString`. -/

/-- The side argument of `parallel_offset`. -/
inductive Side : Type where
  | left
  | right
deriving DecidableEq

/-- The geometry kind returned by `parallel_offset`. -/
inductive OffRes : Type where
  | lineString
  | multiLine
  | otherGeom
deriving DecidableEq

/-- `isinstance(geom, (LineString, MultiLineString))`. -/
def isLineish : OffRes → Bool
  | OffRes.lineString => true
  | OffRes.multiLine => true
  | OffRes.otherGeom => false

/-- The external `parallel_offset` collaborator: vertex list, distance, side
to either a geometry or a raised exception. -/
abbrev OffsetOracle : Type := List Coord → ℚ → Side → Except Unit OffRes

/-- The records one row contributes to the offset collection. -/
def offRow (par : OffsetOracle) (o : ℚ) : Row → List (Key × Side × OffRes)
  | (_, Geom.nonline) => []
  | (k, Geom.line a m b) =>
      match par (coordsOf a m b) o Side.left, par (coordsOf a m b) o Side.right with
      | Except.ok lft, Except.ok rgt =>
          (if isLineish lft then [(k, Side.left, lft)] else [])
            ++ (if isLineish rgt then [(k, Side.right, rgt)] else [])
      | _, _ => []

/-- `generate_offset_lines`: the concatenation, in row order, of each row's
offset records; a separate collection from the segment table. -/
def generate_offset_lines (par : OffsetOracle) (o : ℚ) : List Row → List (Key × Side × OffRes)
  | [] => []
  | r :: rest => offRow par o r ++ generate_offset_lines par o rest

/-- An oracle that always raises (used to instantiate theorems). -/
def oracleFail : OffsetOracle := fun _ _ _ => Except.error ()

/-- An oracle that always returns a plain LineString offset. -/
def oracleOk : OffsetOracle := fun _ _ _ => Except.ok OffRes.lineString

/-! ### Metric geometry: lengths, interpolation, sampling, buffering

Real-valued idealization of the shapely operations used by the pipeline. -/

noncomputable section

/-- A vertex coordinate as a point of the metric plane. -/
def castPt (c : Coord) : Point := ((c.1 : ℝ), (c.2 : ℝ))

/-- The vertex list of a LineString as metric points. -/
def ptsOf (a : Coord) (m : List Coord) (b : Coord) : List Point :=
  (coordsOf a m b).map castPt

/-- Euclidean distance between two points. -/
def ptDist (p q : Point) : ℝ :=
  Real.sqrt ((q.1 - p.1) ^ 2 + (q.2 - p.2) ^ 2)

/-- Arc length of a polyline (`geom.length`): the sum of the vertex-to-vertex
distances. -/
def polyLength : List Point → ℝ
  | [] => 0
  | [_] => 0
  | p :: q :: rest => ptDist p q + polyLength (q :: rest)

/-- The point at parameter `t` of segment `a`-`b`. -/
def lerpP (a b : Point) (t : ℝ) : Point :=
  (a.1 + t * (b.1 - a.1), a.2 + t * (b.2 - a.2))

open Classical in
/-- `geom.interpolate(s)`: walk the polyline consuming arc length; a distance
beyond the total length clamps to the final vertex. -/
def interpolate : List Point → ℝ → Point
  | [], _ => ((0 : ℝ), (0 : ℝ))
  | [p], _ => p
  | p :: q :: rest, s =>
      if s ≤ ptDist p q then lerpP p q (s / ptDist p q)
      else interpolate (q :: rest) (s - ptDist p q)

/-- The consecutive vertex pairs of a polyline (its constituent segments). -/
def polySegs (l : List Point) : List (Point × Point) := l.zip l.tail

/-- `c` is a point of the polyline: it lies on one of its segments. -/
def onPoly (c : Point) (l : List Point) : Prop :=
  ∃ ab ∈ polySegs l, ∃ t : ℝ, 0 ≤ t ∧ t ≤ 1 ∧ c = lerpP ab.1 ab.2 t

/-- Squared Euclidean distance. -/
def sqDist (a b : Point) : ℝ := (a.1 - b.1) ^ 2 + (a.2 - b.2) ^ 2

/-- The disk of radius `r` around `c` meets segment `a`-`b`: some point of the
segment is within distance `r` of `c` (stated with squares; for `r ≥ 0` this
is exactly Euclidean distance at most `r`). -/
def diskHitsSeg (c : Point) (r : ℝ) (a b : Point) : Prop :=
  ∃ t : ℝ, 0 ≤ t ∧ t ≤ 1 ∧ sqDist (lerpP a b t) c ≤ r ^ 2

/-- `point.buffer(r).intersects(geom)` for a row geometry: the disk meets some
constituent segment of the LineString. Non-LineString geometries are opaque
to the model and contribute no intersection. -/
def geomIntersectsDisk (c : Point) (r : ℝ) : Geom → Prop
  | Geom.line a m b => ∃ ab ∈ polySegs (ptsOf a m b), diskHitsSeg c r ab.1 ab.2
  | Geom.nonline => False

/-- `gdf.geometry.length` of one row: arc length of a LineString, `0` for a
non-line geometry. -/
def segLength : Geom → ℝ
  | Geom.line a m b => polyLength (ptsOf a m b)
  | Geom.nonline => 0

open Classical in
/-- The cleaning steps of `main` (index.py lines 145-147): dead-end removal,
then `length_m` annotation, then the filter `length_m >= min_length`. -/
def cleanSegments (minLen : ℝ) (gdf : List Row) : List (Row × ℝ) :=
  (((remove_deadends gdf).map (fun r => (r, segLength r.2))).filter
    (fun p => decide (minLen ≤ p.2)))

/-- The arc-length positions the sampler passes to `interpolate` for one
segment of length `L`: `n = math.floor(L / dist)` and positions `i * dist`
for `i in range(n + 1)` (`range` of a non-positive bound is empty). -/
def samplePositionsR (L d : ℝ) : List ℝ :=
  (List.range (⌊L / d⌋ + 1).toNat).map (fun i : ℕ => (i : ℝ) * d)

/-- The per-segment sampler with its Python error behavior: dividing by a
spacing of exactly `0` raises `ZeroDivisionError` (`none`); any other spacing
silently produces the position list. -/
def samplePositionsE (L d : ℝ) : Option (List ℝ) :=
  if d = 0 then none else some (samplePositionsR L d)

/-- The `(edge_id, point)` records one row contributes in
`generate_points_along` (index.py lines 82-92). -/
def rowSamples (d : ℝ) : Row → List (Key × Point)
  | (_, Geom.nonline) => []
  | (k, Geom.line a m b) =>
      (samplePositionsR (polyLength (ptsOf a m b)) d).map
        (fun s => (k, interpolate (ptsOf a m b) s))

/-- `generate_points_along`: all rows' sample records, in row order. -/
def generate_points_along (gdf : List Row) (d : ℝ) : List (Key × Point) :=
  match gdf with
  | [] => []
  | r :: rest => rowSamples d r ++ generate_points_along rest d

/-- `compute_sidepath_presence` (index.py lines 95-108): buffer every sample
point by `r`, spatially join against the whole segment table, and flag a key
present when any of its points' buffers intersects any way (self included). -/
def compute_sidepath_presence
    (ways : List Row) (pts : List (Key × Point)) (r : ℝ) (k : Key) : Prop :=
  ∃ p : Point, (k, p) ∈ pts ∧ ∃ w ∈ ways, geomIntersectsDisk p r w.2

end

/-! ### Concrete fixtures used by counterexamples and witnesses -/

/-- A closed two-vertex LineString: start and end are the same coordinate. -/
def loopSeg : Geom := Geom.line (0, 0) [] (0, 0)

/-- A three-segment open chain `(0,0)-(20,0)-(40,0)-(60,0)`: the outer two
segments are dead ends, the middle one is not. -/
def chain3 : List Row :=
  [(0, Geom.line (0, 0) [] (20, 0)),
   (1, Geom.line (20, 0) [] (40, 0)),
   (2, Geom.line (40, 0) [] (60, 0))]

/-- The middle segment of `chain3`. -/
def midSeg : Geom := Geom.line (20, 0) [] (40, 0)

/-- A one-row collection holding a horizontal 30-unit segment. -/
def ways30 : List Row := [(0, Geom.line (0, 0) [] (30, 0))]

/-! ## Helper lemmas -/

theorem boolScore_nonneg (b : Bool) : 0 ≤ boolScore b := by
  cases b <;> norm_num [boolScore]

theorem boolScore_le_one (b : Bool) : boolScore b ≤ 1 := by
  cases b <;> norm_num [boolScore]

theorem clip0_60_nonneg (x : ℚ) : 0 ≤ clip0_60 x :=
  le_min (le_max_right _ _) (by norm_num)

theorem clip0_60_le (x : ℚ) : clip0_60 x ≤ 60 := min_le_right _ _

theorem clip0_60_of_mem (x : ℚ) (h0 : 0 ≤ x) (h60 : x ≤ 60) : clip0_60 x = x := by
  rw [clip0_60, max_eq_left h0, min_eq_left h60]

theorem cqi_some_eq (b sd : Bool) (s q : ℚ)
    (h : compute_quality_index b sd (some s) = some q) :
    q = 3/10 * boolScore b + 3/10 * boolScore sd + 4/10 * (1 - clip0_60 s / 60) := by
  simpa [compute_quality_index, speed_norm, eq_comm] using h

theorem cqi_eval (b sd : Bool) (s : ℚ) (h0 : 0 ≤ s) (h60 : s ≤ 60) :
    compute_quality_index b sd (some s)
      = some (3/10 * boolScore b + 3/10 * boolScore sd + 4/10 * (1 - s / 60)) := by
  simp [compute_quality_index, speed_norm, clip0_60_of_mem s h0 h60]

/-! ## Claim theorems -/

/-- C3: for a present numeric `proc_maxspeed`, the scorer computes
`cqi = 0.3 * barrier + 0.3 * sidepath + 0.4 * (1 - clip(speed, 0, 60) / 60)`,
the value lies in `[0, 1]`, and the two pinned examples hold:
barrier and sidepath with speed 60 give `0.60`; neither with speed 0 gives
`0.40`. -/
theorem compute_quality_index_spec :
    (∀ (b sd : Bool) (s : ℚ),
        compute_quality_index b sd (some s)
          = some (3/10 * boolScore b + 3/10 * boolScore sd
              + 4/10 * (1 - clip0_60 s / 60)))
    ∧ (∀ (b sd : Bool) (s q : ℚ),
        compute_quality_index b sd (some s) = some q → 0 ≤ q ∧ q ≤ 1)
    ∧ compute_quality_index true true (some 60) = some (3/5)
    ∧ compute_quality_index false false (some 0) = some (2/5) := by
  refine ⟨?_, ?_, ?_, ?_⟩
  · intro b sd s
    simp [compute_quality_index, speed_norm]
  · intro b sd s q hq
    have hq' := cqi_some_eq b sd s q hq
    have h0 := clip0_60_nonneg s
    have h60 := clip0_60_le s
    have hb0 := boolScore_nonneg b
    have hb1 := boolScore_le_one b
    have hs0 := boolScore_nonneg sd
    have hs1 := boolScore_le_one sd
    constructor <;> rw [hq'] <;> linarith
  · rw [cqi_eval true true 60 (by norm_num) (by norm_num)]
    congr 1
    norm_num [boolScore]
  · rw [cqi_eval false false 0 (by norm_num) (by norm_num)]
    congr 1
    norm_num [boolScore]

/-- Witness for C3: a concrete scored segment (barrier only, speed 30)
evaluates to `1/2`, which the theorem places in `[0, 1]`. -/
theorem compute_quality_index_spec_witness :
    compute_quality_index true false (some 30) = some (1/2)
      ∧ 0 ≤ (1:ℚ)/2 ∧ (1:ℚ)/2 ≤ 1 := by
  have he : compute_quality_index true false (some 30) = some (1/2) := by
    rw [cqi_eval true false 30 (by norm_num) (by norm_num)]
    congr 1
    norm_num [boolScore]
  have h := compute_quality_index_spec.2.1 true false 30 (1/2) he
  exact ⟨he, h.1, h.2⟩

/-- C9: with the barrier and sidepath flags fixed and both speeds inside
`[0, 60]`, a strictly greater `proc_maxspeed` gives a strictly smaller cqi. -/
theorem compute_quality_index_strict_anti
    (b sd : Bool) (s₁ s₂ q₁ q₂ : ℚ)
    (h1 : 0 ≤ s₁) (h2 : s₂ ≤ 60) (hlt : s₁ < s₂)
    (e1 : compute_quality_index b sd (some s₁) = some q₁)
    (e2 : compute_quality_index b sd (some s₂) = some q₂) :
    q₂ < q₁ := by
  have hc1 : clip0_60 s₁ = s₁ := clip0_60_of_mem s₁ h1 (le_trans hlt.le h2)
  have hc2 : clip0_60 s₂ = s₂ := clip0_60_of_mem s₂ (le_trans h1 hlt.le) h2
  have hq1 := cqi_some_eq b sd s₁ q₁ e1
  have hq2 := cqi_some_eq b sd s₂ q₂ e2
  rw [hc1] at hq1
  rw [hc2] at hq2
  rw [hq1, hq2]
  have : s₁ / 60 < s₂ / 60 := by linarith
  linarith

/-- Witness for C9: speeds 20 and 40 with both flags off score `4/15` and
`2/15`, and the theorem orders them strictly. -/
theorem compute_quality_index_strict_anti_witness :
    compute_quality_index false false (some 20) = some (4/15)
      ∧ compute_quality_index false false (some 40) = some (2/15)
      ∧ (2:ℚ)/15 < 4/15 := by
  have e20 : compute_quality_index false false (some 20) = some (4/15) := by
    rw [cqi_eval false false 20 (by norm_num) (by norm_num)]
    congr 1
    norm_num [boolScore]
  have e40 : compute_quality_index false false (some 40) = some (2/15) := by
    rw [cqi_eval false false 40 (by norm_num) (by norm_num)]
    congr 1
    norm_num [boolScore]
  refine ⟨e20, e40, ?_⟩
  exact compute_quality_index_strict_anti false false 20 40 (4/15) (2/15)
    (by norm_num) (by norm_num) (by norm_num) e20 e40

/-- Counterexample to C6 as stated: a missing `proc_maxspeed` does not score
as `0.3·barrier + 0.3·sidepath + 0.4` (here that would be `2/5`); `clip` and
the float arithmetic propagate the missing value, so the cqi is missing. -/
theorem cqi_missing_speed_counterexample :
    compute_quality_index false false none = none
      ∧ compute_quality_index false false none ≠ some (2/5) := by
  exact ⟨rfl, by simp [compute_quality_index, speed_norm]⟩

/-- C6 (amended): a missing `proc_maxspeed` propagates — the speed
normalization and the cqi of such a segment are themselves missing (NaN),
for every combination of the boolean flags. -/
theorem cqi_missing_speed_propagates (b sd : Bool) :
    compute_quality_index b sd none = none ∧ speed_norm none = none :=
  ⟨rfl, rfl⟩

/-- C10: `extract_numeric` is `None` on `None`, on a present string it takes
the first maximal run of decimal digits (equivalently: drop to the first
digit, take while digit), it is `None` exactly when the string has no digit,
and the pinned examples hold: `"30 mph" ↦ 30` and `"32.5" ↦ 32`. -/
theorem extract_numeric_spec :
    extract_numeric none = none
    ∧ (∀ s : String, extract_numeric (some s) = firstDigitRunSpec s)
    ∧ (∀ s : String,
        extract_numeric (some s) = none ↔ ∀ c ∈ s.data, c.isDigit = false)
    ∧ extract_numeric (some ("30 mph")) = some 30
    ∧ extract_numeric (some ("32.5")) = some 32 := by
  have hrun : ∀ l : List Char,
      (findRun l).map (fun run => (digitsVal run : ℚ))
        = (fun run => if run.isEmpty then none else some ((digitsVal run : ℚ)))
            ((l.dropWhile (fun c => ! c.isDigit)).takeWhile (fun c => c.isDigit)) := by
    intro l
    induction l with
    | nil => simp [findRun]
    | cons c rest ih =>
      by_cases hc : c.isDigit
      · simp [findRun, hc, List.dropWhile_cons, List.takeWhile_cons]
      · simpa [findRun, hc, List.dropWhile_cons] using ih
  have hnone : ∀ l : List Char, findRun l = none ↔ ∀ c ∈ l, c.isDigit = false := by
    intro l
    induction l with
    | nil => simp [findRun]
    | cons c rest ih =>
      by_cases hc : c.isDigit
      · simp [findRun, hc]
      · simp [findRun, hc, ih]
  refine ⟨rfl, ?_, ?_, by decide, by decide⟩
  · intro s
    have h := hrun s.data
    simpa [extract_numeric, firstDigitRunSpec] using h
  · intro s
    constructor
    · intro h
      have h' : findRun s.data = none := by
        rcases hfr : findRun s.data with _ | run
        · rfl
        · simp [extract_numeric, hfr] at h
      exact (hnone s.data).mp h'
    · intro h
      simp [extract_numeric, (hnone s.data).mpr h]

/-- Witness for C10: the no-digit characterization applied to a concrete
digit-free string. -/
theorem extract_numeric_spec_witness :
    extract_numeric (some ("abc")) = none :=
  (extract_numeric_spec.2.2.1 ("abc")).mpr (by decide)

theorem offRow_left_error (par : OffsetOracle) (o : ℚ) (k : Key) (a : Coord)
    (m : List Coord) (b : Coord) (e : Unit)
    (h : par (coordsOf a m b) o Side.left = Except.error e) :
    offRow par o (k, Geom.line a m b) = [] := by
  simp only [offRow]
  rw [h]

theorem offRow_right_error (par : OffsetOracle) (o : ℚ) (k : Key) (a : Coord)
    (m : List Coord) (b : Coord) (e : Unit)
    (h : par (coordsOf a m b) o Side.right = Except.error e) :
    offRow par o (k, Geom.line a m b) = [] := by
  simp only [offRow]
  rw [h]
  split <;> simp_all

theorem offRow_ok_ok (par : OffsetOracle) (o : ℚ) (k : Key) (a : Coord)
    (m : List Coord) (b : Coord) (l1 r2 : OffRes)
    (hl : par (coordsOf a m b) o Side.left = Except.ok l1)
    (hr : par (coordsOf a m b) o Side.right = Except.ok r2) :
    offRow par o (k, Geom.line a m b)
      = (if isLineish l1 then [(k, Side.left, l1)] else [])
          ++ (if isLineish r2 then [(k, Side.right, r2)] else []) := by
  simp only [offRow]
  rw [hl, hr]

/-- C8: the offset generator never aborts on a single segment — a row whose
offset construction fails (raises) contributes nothing and the other rows'
output is unchanged; a raised left or right `parallel_offset` call skips the
whole row; every row contributes at most two records; and every record
carries its row's key and the side `left` or `right`. -/
theorem generate_offset_lines_spec :
    (∀ (par : OffsetOracle) (o : ℚ) (pre post : List Row) (r : Row),
        offRow par o r = [] →
        generate_offset_lines par o (pre ++ r :: post)
          = generate_offset_lines par o (pre ++ post))
    ∧ (∀ (par : OffsetOracle) (o : ℚ) (k : Key) (a : Coord) (m : List Coord)
        (b : Coord) (e : Unit),
        par (coordsOf a m b) o Side.left = Except.error e →
        offRow par o (k, Geom.line a m b) = [])
    ∧ (∀ (par : OffsetOracle) (o : ℚ) (k : Key) (a : Coord) (m : List Coord)
        (b : Coord) (e : Unit),
        par (coordsOf a m b) o Side.right = Except.error e →
        offRow par o (k, Geom.line a m b) = [])
    ∧ (∀ (par : OffsetOracle) (o : ℚ) (r : Row), (offRow par o r).length ≤ 2)
    ∧ (∀ (par : OffsetOracle) (o : ℚ) (r : Row) (x : Key × Side × OffRes),
        x ∈ offRow par o r →
        x.1 = r.1 ∧ (x.2.1 = Side.left ∨ x.2.1 = Side.right)) := by
  refine ⟨?_, ?_, ?_, ?_, ?_⟩
  · intro par o pre post r hskip
    induction pre with
    | nil => simp [generate_offset_lines, hskip]
    | cons hd tl ih => simp [generate_offset_lines, ih]
  · intro par o k a m b e h
    exact offRow_left_error par o k a m b e h
  · intro par o k a m b e h
    exact offRow_right_error par o k a m b e h
  · intro par o r
    rcases r with ⟨k, g⟩
    cases g with
    | nonline => simp [offRow]
    | line a m b =>
      rcases hl : par (coordsOf a m b) o Side.left with e1 | l1
      · rw [offRow_left_error par o k a m b e1 hl]
        simp
      · rcases hr : par (coordsOf a m b) o Side.right with e2 | r2
        · rw [offRow_right_error par o k a m b e2 hr]
          simp
        · rw [offRow_ok_ok par o k a m b l1 r2 hl hr]
          split_ifs <;> simp
  · intro par o r x hx
    rcases r with ⟨k, g⟩
    cases g with
    | nonline => simp [offRow] at hx
    | line a m b =>
      rcases hl : par (coordsOf a m b) o Side.left with e1 | l1
      · rw [offRow_left_error par o k a m b e1 hl] at hx
        simp at hx
      · rcases hr : par (coordsOf a m b) o Side.right with e2 | r2
        · rw [offRow_right_error par o k a m b e2 hr] at hx
          simp at hx
        · rw [offRow_ok_ok par o k a m b l1 r2 hl hr] at hx
          rcases List.mem_append.mp hx with h | h
          · split_ifs at h with hb
            · simp at h
              subst h
              simp
            · simp at h
          · split_ifs at h with hb
            · simp at h
              subst h
              simp
            · simp at h

/-- Witness for C8: a failing oracle's row disappears from the output and an
always-succeeding oracle's row yields at most two records. -/
theorem generate_offset_lines_spec_witness :
    generate_offset_lines oracleFail 2
        ([] ++ (0, Geom.line (0, 0) [] (1, 0)) :: [(1, Geom.nonline)])
      = generate_offset_lines oracleFail 2 ([] ++ [(1, Geom.nonline)])
    ∧ (offRow oracleOk 2 (0, Geom.line (0, 0) [] (1, 0))).length ≤ 2 := by
  constructor
  · exact generate_offset_lines_spec.1 oracleFail 2 [] [(1, Geom.nonline)]
      (0, Geom.line (0, 0) [] (1, 0)) rfl
  · exact generate_offset_lines_spec.2.2.2.1 oracleOk 2 (0, Geom.line (0, 0) [] (1, 0))

/-- Counterexample to C4 as stated: in the one-row collection holding a
closed LineString (start coordinate equals end coordinate), that coordinate
occurs as an endpoint of exactly one segment, yet the segment is kept —
`value_counts` counts endpoint occurrences, and a closed segment contributes
its shared coordinate twice. -/
theorem remove_deadends_loop_counterexample :
    segTouchCount [(0, loopSeg)] ((0 : ℚ), (0 : ℚ)) = 1
      ∧ (0, loopSeg) ∈ remove_deadends [(0, loopSeg)] := by
  constructor
  · decide
  · decide

/-- C4 (amended): the single pass removes exactly those LineStrings having an
end coordinate that occurs exactly once in the endpoint-occurrence list of
the original input (each LineString contributes both its end coordinates,
with multiplicity); removal does not cascade — on the three-segment chain the
outer segments go, the middle one stays even though its endpoints are only
degree-1 after their removal, and only a second invocation removes it. -/
theorem remove_deadends_spec :
    (∀ (gdf : List Row) (r : Row),
        r ∈ remove_deadends gdf ↔ r ∈ gdf ∧ ¬ hasDeadEndpointOcc gdf r.2)
    ∧ remove_deadends chain3 = [(1, midSeg)]
    ∧ remove_deadends [(1, midSeg)] = [] := by
  refine ⟨?_, by decide, by decide⟩
  intro gdf r
  rw [remove_deadends, List.mem_filter]
  apply and_congr_right
  intro _
  cases hg : r.2 with
  | nonline => simp [is_dead, hasDeadEndpointOcc]
  | line a m b => simp [is_dead, hasDeadEndpointOcc, deadCoord, not_or]

/-- Witness for C4: the amended membership characterization puts the middle
chain segment in the cleaned collection. -/
theorem remove_deadends_spec_witness :
    (1, midSeg) ∈ remove_deadends chain3 := by
  refine (remove_deadends_spec.1 chain3 (1, midSeg)).mpr ⟨by decide, ?_⟩
  simp only [midSeg, hasDeadEndpointOcc]
  decide

/-- C2: for a segment of arc length `L ≥ 0` and spacing `d > 0` the sampler
emits exactly `⌊L/d⌋ + 1` positions, the `i`-th being `i·d`; the last one is
`⌊L/d⌋·d ≤ L`; and a segment with `0 ≤ L < d` emits exactly the single
position `0`. -/
theorem samplePositions_spec (L d : ℝ) (hL : 0 ≤ L) (hd : 0 < d) :
    ((samplePositionsR L d).length : ℤ) = ⌊L / d⌋ + 1
    ∧ (∀ i : ℕ, i < (samplePositionsR L d).length →
        (samplePositionsR L d)[i]? = some ((i : ℝ) * d))
    ∧ (samplePositionsR L d).getLast? = some ((⌊L / d⌋ : ℝ) * d)
    ∧ (⌊L / d⌋ : ℝ) * d ≤ L
    ∧ (L < d → samplePositionsR L d = [0]) := by
  have hq : 0 ≤ L / d := div_nonneg hL hd.le
  have hf : 0 ≤ ⌊L / d⌋ := Int.floor_nonneg.mpr hq
  have hlen : (samplePositionsR L d).length = (⌊L / d⌋ + 1).toNat := by
    simp [samplePositionsR]
  refine ⟨?_, ?_, ?_, ?_, ?_⟩
  · rw [hlen]
    exact Int.toNat_of_nonneg (by omega)
  · intro i hi
    rw [hlen] at hi
    simp [samplePositionsR, List.getElem?_map, List.getElem?_range, hi]
  · have htn : (⌊L / d⌋ + 1).toNat = ⌊L / d⌋.toNat + 1 := by omega
    rw [samplePositionsR, htn, List.range_succ, List.map_append, List.map_cons,
      List.map_nil, List.getLast?_concat]
    have hc : ((⌊L / d⌋.toNat : ℕ) : ℝ) = (⌊L / d⌋ : ℝ) := by
      exact_mod_cast Int.toNat_of_nonneg hf
    rw [hc]
  · calc (⌊L / d⌋ : ℝ) * d ≤ (L / d) * d :=
          mul_le_mul_of_nonneg_right (Int.floor_le _) hd.le
      _ = L := div_mul_cancel₀ L hd.ne'
  · intro hLd
    have h1 : L / d < 1 := (div_lt_one hd).mpr hLd
    have h0 : ⌊L / d⌋ = 0 := Int.floor_eq_zero_iff.mpr ⟨hq, h1⟩
    have hr1 : List.range 1 = [0] := rfl
    simp [samplePositionsR, h0, hr1]

/-- Witness for C2: a 50-unit segment with 20-unit spacing emits three
positions, and a 5-unit segment with 20-unit spacing emits only position 0. -/
theorem samplePositions_spec_witness :
    (samplePositionsR 50 20).length = 3 ∧ samplePositionsR 5 20 = [0] := by
  have hfl : ⌊(50 : ℝ) / 20⌋ = 2 := by
    rw [show (50 : ℝ) / 20 = 5 / 2 by norm_num, Int.floor_eq_iff]
    norm_num
  constructor
  · have h := (samplePositions_spec 50 20 (by norm_num) (by norm_num)).1
    rw [hfl] at h
    exact_mod_cast h
  · exact (samplePositions_spec 5 20 (by norm_num) (by norm_num)).2.2.2.2
      (by norm_num)

/-- Counterexample to C7 as stated: the spacing `-5 ≤ 0` does not make the
sampler fail — on a segment of length 10 it silently emits no points at all
(`math.floor(10 / -5) = -2`, and `range(-1)` is empty). -/
theorem samplePositionsE_counterexample :
    samplePositionsE 10 (-5) = some [] ∧ (-5 : ℝ) ≤ 0 := by
  constructor
  · rw [samplePositionsE, if_neg (by norm_num)]
    have hfl : ⌊(10 : ℝ) / (-5)⌋ = -2 := by
      rw [show (10 : ℝ) / (-5) = ((-2 : ℤ) : ℝ) by norm_num]
      exact Int.floor_intCast (-2)
    simp [samplePositionsR, hfl]
  · norm_num

/-- C7 (amended): only the spacing `d = 0` makes the sampler fail (a
division-by-zero error); a negative spacing is accepted silently — a segment
of positive length then emits no points, a zero-length segment emits the
single position 0. -/
theorem samplePositionsE_nonpositive_spacing :
    (∀ L : ℝ, samplePositionsE L 0 = none)
    ∧ (∀ L d : ℝ, d < 0 → 0 < L → samplePositionsE L d = some [])
    ∧ (∀ d : ℝ, d < 0 → samplePositionsE 0 d = some [0]) := by
  refine ⟨?_, ?_, ?_⟩
  · intro L
    simp [samplePositionsE]
  · intro L d hd hL
    rw [samplePositionsE, if_neg hd.ne]
    have hneg : L / d < 0 := div_neg_of_pos_of_neg hL hd
    have hfl : ⌊L / d⌋ < 0 := Int.floor_lt.mpr (by exact_mod_cast hneg)
    have htn : (⌊L / d⌋ + 1).toNat = 0 := by omega
    simp [samplePositionsR, htn]
  · intro d hd
    rw [samplePositionsE, if_neg hd.ne]
    have hr1 : List.range 1 = [0] := rfl
    simp [samplePositionsR, zero_div, hr1]

/-- Witness for C7: the amended behavior at spacing 0 and -2. -/
theorem samplePositionsE_nonpositive_spacing_witness :
    samplePositionsE 7 0 = none
    ∧ samplePositionsE 3 (-2) = some []
    ∧ samplePositionsE 0 (-2) = some [0] :=
  ⟨samplePositionsE_nonpositive_spacing.1 7,
   samplePositionsE_nonpositive_spacing.2.1 3 (-2) (by norm_num) (by norm_num),
   samplePositionsE_nonpositive_spacing.2.2 (-2) (by norm_num)⟩

theorem ptDist_nonneg (p q : Point) : 0 ≤ ptDist p q := Real.sqrt_nonneg _

theorem polyLength_nonneg : ∀ l : List Point, 0 ≤ polyLength l
  | [] => by simp [polyLength]
  | [_] => by simp [polyLength]
  | p :: q :: rest => by
      have ih := polyLength_nonneg (q :: rest)
      have h := ptDist_nonneg p q
      simp only [polyLength]
      linarith

theorem sqrt_eval (a b : ℝ) (hb : 0 ≤ b) (h : a = b ^ 2) : Real.sqrt a = b := by
  rw [h]
  exact Real.sqrt_sq hb

theorem segLength_loopSeg : segLength loopSeg = 0 := by
  show ptDist (castPt (0, 0)) (castPt (0, 0)) + polyLength [castPt (0, 0)] = 0
  rw [show polyLength [castPt (0, 0)] = 0 from rfl, ptDist, add_zero]
  exact sqrt_eval _ 0 le_rfl (by norm_num)

theorem segLength_midSeg : segLength midSeg = 20 := by
  show ptDist (castPt (20, 0)) (castPt (40, 0)) + polyLength [castPt (40, 0)] = 20
  rw [show polyLength [castPt (40, 0)] = 0 from rfl, ptDist, add_zero]
  exact sqrt_eval _ 20 (by norm_num) (by norm_num [castPt])

/-- Counterexample to C5 as stated: with `min_length = 0` the zero-length
closed segment survives both cleaning steps (its coordinate has endpoint
count 2, and `0 ≥ 0` passes the filter), so a cleaned segment with
`length_m = 0` exists and `length_m > 0` fails. -/
theorem cleanSegments_zero_length_counterexample :
    ((0, loopSeg), (0 : ℝ)) ∈ cleanSegments 0 [(0, loopSeg)]
      ∧ ¬ (0 : ℝ) < 0 := by
  constructor
  · have h1 : remove_deadends [(0, loopSeg)] = [(0, loopSeg)] := by decide
    unfold cleanSegments
    rw [h1]
    simp only [List.map_cons, List.map_nil]
    rw [segLength_loopSeg]
    refine List.mem_filter.mpr ⟨by simp, ?_⟩
    exact decide_eq_true le_rfl
  · exact lt_irrefl 0

/-- C5 (amended): every record of the cleaned collection satisfies
`length_m ≥ min_length`, and when `min_length > 0` it also satisfies
`length_m > 0` (the strict positivity can fail only at `min_length = 0`). -/
theorem cleanSegments_min_length (minLen : ℝ) (gdf : List Row) (p : Row × ℝ)
    (hp : p ∈ cleanSegments minLen gdf) :
    minLen ≤ p.2 ∧ (0 < minLen → 0 < p.2) := by
  unfold cleanSegments at hp
  obtain ⟨hmem, hdec⟩ := List.mem_filter.mp hp
  have hle : minLen ≤ p.2 := of_decide_eq_true hdec
  exact ⟨hle, fun h0 => lt_of_lt_of_le h0 hle⟩

/-- Witness for C5: cleaning the three-segment chain with `min_length = 10`
keeps the 20-unit middle segment, and the theorem bounds its length. -/
theorem cleanSegments_min_length_witness :
    (((1, midSeg), (20 : ℝ)) ∈ cleanSegments 10 chain3) ∧ (10 : ℝ) ≤ 20 := by
  have h1 : remove_deadends chain3 = [(1, midSeg)] := by decide
  have hmem : ((1, midSeg), (20 : ℝ)) ∈ cleanSegments 10 chain3 := by
    unfold cleanSegments
    rw [h1]
    simp only [List.map_cons, List.map_nil]
    rw [segLength_midSeg]
    refine List.mem_filter.mpr ⟨by simp, ?_⟩
    exact decide_eq_true (by norm_num)
  exact ⟨hmem, (cleanSegments_min_length 10 chain3 ((1, midSeg), 20) hmem).1⟩

theorem lerpP_one (a b : Point) : lerpP a b 1 = b := by
  rw [lerpP, Prod.ext_iff]
  constructor <;> simp

theorem polySegs_cons (p q : Point) (rest : List Point) :
    polySegs (p :: q :: rest) = (p, q) :: polySegs (q :: rest) := rfl

theorem interpolate_cons (p q : Point) (rest : List Point) (s : ℝ) :
    interpolate (p :: q :: rest) s
      = if s ≤ ptDist p q then lerpP p q (s / ptDist p q)
        else interpolate (q :: rest) (s - ptDist p q) := rfl

theorem sqDist_self (a : Point) : sqDist a a = 0 := by
  simp [sqDist]

theorem interpolate_onPoly :
    ∀ (l : List Point), 2 ≤ l.length → ∀ (s : ℝ), 0 ≤ s →
      onPoly (interpolate l s) l := by
  intro l
  induction l with
  | nil =>
    intro hl
    simp at hl
  | cons p rest ih =>
    intro hl s hs
    cases rest with
    | nil => simp at hl
    | cons q rest2 =>
      rw [interpolate_cons]
      by_cases hc : s ≤ ptDist p q
      · rw [if_pos hc]
        refine ⟨(p, q), ?_, s / ptDist p q, ?_, ?_, rfl⟩
        · rw [polySegs_cons]
          exact List.mem_cons_self _ _
        · exact div_nonneg hs (ptDist_nonneg p q)
        · rcases eq_or_lt_of_le (ptDist_nonneg p q) with h0 | h0
          · rw [← h0, div_zero]
            norm_num
          · exact (div_le_one h0).mpr hc
      · rw [if_neg hc]
        push_neg at hc
        cases rest2 with
        | nil =>
          show onPoly q [p, q]
          refine ⟨(p, q), ?_, 1, by norm_num, le_rfl, (lerpP_one p q).symm⟩
          rw [polySegs_cons]
          exact List.mem_cons_self _ _
        | cons w rest3 =>
          obtain ⟨ab, hab, t, ht0, ht1, hceq⟩ :=
            ih (by simp) (s - ptDist p q) (by linarith)
          exact ⟨ab, by rw [polySegs_cons]; exact List.mem_cons_of_mem _ hab,
            t, ht0, ht1, hceq⟩

theorem mem_generate_points_along {x : Key × Point} {gdf : List Row} {d : ℝ} :
    x ∈ generate_points_along gdf d ↔ ∃ r ∈ gdf, x ∈ rowSamples d r := by
  induction gdf with
  | nil => simp [generate_points_along]
  | cons r rest ih =>
    simp [generate_points_along, List.mem_append, ih]

/-- C1: every sample point emitted by the sampler (spacing `d > 0`) makes its
own segment's key sidepath-present for any buffer radius `r > 0`: the point
lies on its source LineString, so its disk meets that very segment, which
participates in the spatial join. -/
theorem sidepath_self_presence (ways : List Row) (d r : ℝ) (k : Key) (p : Point)
    (hd : 0 < d) (hr : 0 < r)
    (hp : (k, p) ∈ generate_points_along ways d) :
    compute_sidepath_presence ways (generate_points_along ways d) r k := by
  obtain ⟨row, hrow, hmem⟩ := mem_generate_points_along.mp hp
  rcases row with ⟨k2, g⟩
  cases g with
  | nonline => simp [rowSamples] at hmem
  | line a m b =>
    simp only [rowSamples, List.mem_map] at hmem
    obtain ⟨s, hs, heq⟩ := hmem
    have hk : k2 = k := congrArg Prod.fst heq
    have hpt : interpolate (ptsOf a m b) s = p := congrArg Prod.snd heq
    subst hk
    simp only [samplePositionsR, List.mem_map, List.mem_range] at hs
    obtain ⟨i, hi, hsi⟩ := hs
    have hs0 : 0 ≤ s := by
      rw [← hsi]
      positivity
    have hlen : 2 ≤ (ptsOf a m b).length := by
      simp [ptsOf, coordsOf]
    obtain ⟨ab, hab, t, ht0, ht1, hc⟩ := interpolate_onPoly (ptsOf a m b) hlen s hs0
    unfold compute_sidepath_presence
    refine ⟨p, hp, (k2, Geom.line a m b), hrow, ?_⟩
    show ∃ ab ∈ polySegs (ptsOf a m b), diskHitsSeg p r ab.1 ab.2
    refine ⟨ab, hab, t, ht0, ht1, ?_⟩
    rw [← hpt, hc, sqDist_self]
    positivity

/-- Witness for C1: in the one-segment collection `ways30`, the first emitted
sample point makes key 0 sidepath-present with spacing 20 and radius 5. -/
theorem sidepath_self_presence_witness :
    0 < (20 : ℝ) ∧ 0 < (5 : ℝ)
      ∧ compute_sidepath_presence ways30 (generate_points_along ways30 20) 5 0 := by
  refine ⟨by norm_num, by norm_num, ?_⟩
  have hL : 0 ≤ polyLength (ptsOf (0, 0) [] (30, 0)) := polyLength_nonneg _
  have hf : 0 ≤ ⌊polyLength (ptsOf (0, 0) [] (30, 0)) / 20⌋ :=
    Int.floor_nonneg.mpr (div_nonneg hL (by norm_num))
  have hpos : (0 : ℕ) < (⌊polyLength (ptsOf (0, 0) [] (30, 0)) / 20⌋ + 1).toNat := by
    omega
  have hsmem : ((0 : ℕ) : ℝ) * 20
      ∈ samplePositionsR (polyLength (ptsOf (0, 0) [] (30, 0))) 20 :=
    List.mem_map_of_mem _ (List.mem_range.mpr hpos)
  have hmem : ((0 : Key), interpolate (ptsOf (0, 0) [] (30, 0)) (((0 : ℕ) : ℝ) * 20))
      ∈ generate_points_along ways30 20 := by
    apply mem_generate_points_along.mpr
    refine ⟨(0, Geom.line (0, 0) [] (30, 0)), by simp [ways30], ?_⟩
    exact List.mem_map_of_mem _ hsmem
  exact sidepath_self_presence ways30 20 5 0 _ (by norm_num) (by norm_num) hmem

end CECI
